import Mathlib

/-!
Shallow embedding of the `jitter` Go package (khinshankhan/jitter-go, v2):
the exponential-cap primitive `expCap` (lib.go), the stateless strategies
Full, Equal and Exponential, the stateful Decorrelated strategy, and the
shared configuration validation (`getJitterConfigIssues`, `ConfigError`).

Go `int64` and `int` values are embedded as `Int`.  All arithmetic in the
package stays within `int64` range for in-range inputs, with one exception:
`decorrelatedJitter.Next` computes `d.sleep * 3`, which can exceed
`int64` even when `sleep ≤ cap` holds; that multiplication is therefore
modelled with explicit two's-complement wraparound (`wrap64`).  Everywhere
else the Go operations coincide with exact integer arithmetic on the
values that can reach them, so they are embedded exactly.
-/

namespace Jitter

/-- Two's-complement wraparound of a 64-bit signed integer, used where a Go
`int64` operation can overflow.  The literals are `2 ^ 63` and `2 ^ 64`. -/
def wrap64 (x : Int) : Int :=
  (x + 9223372036854775808) % 18446744073709551616 - 9223372036854775808

/-- The `RandomFunc` contract from lib.go: for every bound `n > 0` the
source returns a value in `[0, n)`.  Behaviour at `n ≤ 0` is unconstrained
("Implementations must handle max > 0; callers should not pass max <= 0"). -/
def GoodRandom (random : Int → Int) : Prop :=
  ∀ n : Int, 0 < n → 0 ≤ random n ∧ random n < n

/-- `Config` from lib.go.  `Random = none` models a nil `RandomFunc`. -/
structure Config where
  Base : Int
  Cap : Int
  Random : Option (Int → Int)

/-- The loop of `expCap` (lib.go):
`for i := 0; i < attempt && max < cap; i++ { if max > cap/2 { max = cap; break }; max <<= 1 }`.
The fuel argument is the remaining number of iterations. -/
def expCapLoop (cap : Int) : Nat → Int → Int
  | 0, m => m
  | n + 1, m =>
    if m < cap then
      if m > cap / 2 then cap
      else expCapLoop cap n (m * 2)
    else m

/-- `expCap` from lib.go: `base * 2^attempt` clamped to `cap`, computed by
step-by-step doubling; returns 0 when `attempt < 0`, `base <= 0` or `cap <= 0`. -/
def expCap (base cap : Int) (attempt : Int) : Int :=
  if attempt < 0 ∨ base ≤ 0 ∨ cap ≤ 0 then 0
  else
    let m := expCapLoop cap attempt.toNat base
    if m > cap then cap else m

/-- `fullJitter.Next` from full.go (v2, the error-returning revision):
`max := expCap(f.base, f.cap, attempt); if max < 0 { return 0 }; return f.random(max)`. -/
def fullNext (base cap : Int) (random : Int → Int) (attempt : Int) : Int :=
  let mx := expCap base cap attempt
  if mx < 0 then 0 else random mx

/-- `equalJitter.Next` from equal.go. -/
def equalNext (base cap : Int) (random : Int → Int) (attempt : Int) : Int :=
  let backoff := expCap base cap attempt
  if backoff ≤ 0 then 0
  else
    let half := backoff / 2
    let span := backoff - half
    if span ≤ 0 then half
    else half + random span

/-- `exponential.Next` from exponential.go. -/
def exponentialNext (base cap : Int) (attempt : Int) : Int :=
  expCap base cap attempt

/-- Tail of `decorrelatedJitter.Next` from the point where `max` (here `mx2`)
has been clamped: either the "no room to jitter" returns of `min` (= `base`),
or the draw `min + d.random(span)` with its two clamps. -/
def decorrelatedDraw (base cap : Int) (random : Int → Int) (mx2 : Int) : Int :=
  if mx2 ≤ base then base
  else
    let span := mx2 - base
    if span ≤ 0 then base
    else
      let next0 := base + random span
      let next1 := if next0 ≤ 0 then base else next0
      if next1 > cap then cap else next1

/-- The new `sleep` stored (and returned) by `decorrelatedJitter.Next` from
decorrelated.go.  `s1`/`s2` are the stored sleep after the reset step and the
safeguard step; `mx0`/`mx1`/`mx2` are the source's `max` after the
multiplication, the `max < min` clamp and the `max > cap` clamp; the
source's `min` is `base`.  The multiplication `d.sleep * 3` wraps at 64 bits
(see module comment). -/
def decorrelatedStep (base cap : Int) (random : Int → Int) (attempt : Int)
    (sleep : Int) : Int :=
  let s1 := if attempt < 1 then base else sleep
  let s2 := if s1 ≤ 0 then base else s1
  let mx0 := wrap64 (s2 * 3)
  let mx1 := if mx0 < base then base else mx0
  let mx2 := if mx1 > cap then cap else mx1
  decorrelatedDraw base cap random mx2

/-- `decorrelatedJitter.Next` as `(returned value, new sleep)`.  Every return
point of the source returns the freshly assigned `d.sleep`, so the returned
value and the new state coincide. -/
def decorrelatedNext (base cap : Int) (random : Int → Int) (attempt : Int)
    (sleep : Int) : Int × Int :=
  (decorrelatedStep base cap random attempt sleep,
   decorrelatedStep base cap random attempt sleep)

/-- `getJitterConfigIssues` (shared validation for Full, Equal, Decorrelated). -/
def getJitterConfigIssues (cfg : Config) : List String :=
  (if cfg.Base ≤ 0 then ["Base must be > 0"] else []) ++
  (if cfg.Cap ≤ 0 then ["Cap must be > 0"] else []) ++
  (if cfg.Random.isNone then ["Random function must be provided"] else [])

/-- `getExponentialConfigIssues` from exponential.go (no random-source check). -/
def getExponentialConfigIssues (cfg : Config) : List String :=
  (if cfg.Base ≤ 0 then ["Base must be > 0"] else []) ++
  (if cfg.Cap ≤ 0 then ["Cap must be > 0"] else [])

/-- `ConfigError` with its `Issues` field. -/
structure ConfigError where
  Issues : List String

/-- `(*ConfigError).Error()`: the single error message joining every issue. -/
def ConfigError.errorMessage (e : ConfigError) : String :=
  "jitter: invalid config: " ++ String.intercalate ", " e.Issues

/-- The `fullJitter` struct. -/
structure FullJitter where
  base : Int
  cap : Int
  random : Int → Int

/-- The `equalJitter` struct. -/
structure EqualJitter where
  base : Int
  cap : Int
  random : Int → Int

/-- The `decorrelatedJitter` struct (its `sleep` field is the state threaded
through `decorrelatedNext`). -/
structure DecorrelatedJitter where
  base : Int
  cap : Int
  random : Int → Int
  sleep : Int

/-- The `exponential` struct (no random source stored). -/
structure Exponential where
  base : Int
  cap : Int

/-- `NewFull` from full.go (v2): fails with a `ConfigError` listing every issue. -/
def NewFull (cfg : Config) : Except ConfigError FullJitter :=
  let issues := getJitterConfigIssues cfg
  if issues = [] then
    match cfg.Random with
    | some r => .ok ⟨cfg.Base, cfg.Cap, r⟩
    | none => .error ⟨issues⟩
  else .error ⟨issues⟩

/-- `NewEqual` from equal.go. -/
def NewEqual (cfg : Config) : Except ConfigError EqualJitter :=
  let issues := getJitterConfigIssues cfg
  if issues = [] then
    match cfg.Random with
    | some r => .ok ⟨cfg.Base, cfg.Cap, r⟩
    | none => .error ⟨issues⟩
  else .error ⟨issues⟩

/-- `NewDecorrelated` from decorrelated.go: initial `sleep` is `cfg.Base`. -/
def NewDecorrelated (cfg : Config) : Except ConfigError DecorrelatedJitter :=
  let issues := getJitterConfigIssues cfg
  if issues = [] then
    match cfg.Random with
    | some r => .ok ⟨cfg.Base, cfg.Cap, r, cfg.Base⟩
    | none => .error ⟨issues⟩
  else .error ⟨issues⟩

/-- `NewExponential` from exponential.go: never inspects `cfg.Random`. -/
def NewExponential (cfg : Config) : Except ConfigError Exponential :=
  let issues := getExponentialConfigIssues cfg
  if issues = [] then .ok ⟨cfg.Base, cfg.Cap⟩
  else .error ⟨issues⟩

/-- The deterministic source that always returns the maximum of `[0, n)`. -/
def maxRandom : Int → Int := fun n => n - 1

/-- Sleep state of a Decorrelated instance after `k` calls of
`Next attempt`, starting from the freshly constructed state `sleep = base`. -/
def decorrelatedSleepSeq (base cap : Int) (random : Int → Int) (attempt : Int) :
    Nat → Int
  | 0 => base
  | k + 1 =>
    (decorrelatedNext base cap random attempt
      (decorrelatedSleepSeq base cap random attempt k)).2

/-- Value returned by the `(k+1)`-th call of `Next attempt` on a fresh instance. -/
def decorrelatedValueSeq (base cap : Int) (random : Int → Int) (attempt : Int)
    (k : Nat) : Int :=
  (decorrelatedNext base cap random attempt
    (decorrelatedSleepSeq base cap random attempt k)).1

/-- The sleep states surrounding a sequence of `Next` calls: the state before
the first call, between consecutive calls, and after the last. -/
def decorrelatedSleeps (base cap : Int) (random : Int → Int) :
    List Int → Int → List Int
  | [], s => [s]
  | a :: rest, s =>
    s :: decorrelatedSleeps base cap random rest
      (decorrelatedNext base cap random a s).2

/-- The safeguard branch of `decorrelatedJitter.Next` fires when, after the
reset step, the stored sleep is still `≤ 0`. -/
def decorrelatedSafeguardFires (base : Int) (attempt sleep : Int) : Prop :=
  (if attempt < 1 then base else sleep) ≤ 0

/-- No call in the sequence takes the safeguard branch. -/
def decorrelatedRunSafe (base cap : Int) (random : Int → Int) :
    List Int → Int → Prop
  | [], _ => True
  | a :: rest, s =>
    ¬ decorrelatedSafeguardFires base a s ∧
      decorrelatedRunSafe base cap random rest
        (decorrelatedNext base cap random a s).2

/-! ## The exponential-cap primitive -/

/-- Closed form of the doubling loop: left alone when the accumulator already
reached `cap`, otherwise exactly `min (m * 2 ^ n) cap`. -/
theorem expCapLoop_eq (cap : Int) :
    ∀ (n : Nat) (m : Int), 0 < m →
      expCapLoop cap n m = if cap ≤ m then m else min (m * 2 ^ n) cap := by
  intro n
  induction n with
  | zero =>
    intro m hm
    rcases le_or_lt cap m with h | h
    · simp [expCapLoop, h]
    · rw [expCapLoop, if_neg (not_le.mpr h), pow_zero, mul_one,
        min_eq_left h.le]
  | succ n ih =>
    intro m hm
    rcases le_or_lt cap m with h | h
    · rw [expCapLoop, if_neg (not_lt.mpr h), if_pos h]
    · rw [expCapLoop, if_pos h, if_neg (not_le.mpr h)]
      have hpow : (0 : Int) < 2 ^ n := pow_pos (by norm_num) n
      by_cases hhalf : m > cap / 2
      · rw [if_pos hhalf]
        have h2m : cap < m * 2 := by omega
        have hcap : cap ≤ m * 2 ^ (n + 1) := by
          rw [pow_succ]
          nlinarith
        rw [min_eq_right hcap]
      · rw [if_neg hhalf]
        have h2c : m * 2 ≤ cap := by omega
        rw [ih (m * 2) (by omega)]
        rcases le_or_lt cap (m * 2) with h2 | h2
        · have he : m * 2 = cap := le_antisymm h2c h2
          have hcap : cap ≤ m * 2 ^ (n + 1) := by
            rw [pow_succ]
            nlinarith
          rw [if_pos h2, min_eq_right hcap, he]
        · rw [if_neg (not_le.mpr h2)]
          congr 1
          rw [pow_succ]
          ring

/-- On valid inputs `expCap` is exactly `min (base * 2 ^ attempt) cap`. -/
theorem expCap_eq_min (base cap attempt : Int)
    (hb : 0 < base) (hc : 0 < cap) (ha : 0 ≤ attempt) :
    expCap base cap attempt = min (base * 2 ^ attempt.toNat) cap := by
  have hpow : (0 : Int) < 2 ^ attempt.toNat := pow_pos (by norm_num) _
  rw [expCap, if_neg (by omega)]
  simp only
  rw [expCapLoop_eq cap attempt.toNat base hb]
  rcases le_or_lt cap base with h | h
  · rw [if_pos h]
    have h1 : cap ≤ base * 2 ^ attempt.toNat := by nlinarith
    rw [min_eq_right h1]
    rcases lt_or_eq_of_le h with h2 | h2
    · rw [if_pos h2]
    · rw [if_neg (by omega)]
      omega
  · rw [if_neg (not_le.mpr h)]
    rw [if_neg (not_lt.mpr (min_le_right _ _))]

/-- On any invalid input `expCap` returns `0`. -/
theorem expCap_eq_zero (base cap attempt : Int)
    (h : base ≤ 0 ∨ cap ≤ 0 ∨ attempt < 0) :
    expCap base cap attempt = 0 := by
  rw [expCap, if_pos (by tauto)]

/-- On valid inputs `expCap` is strictly positive. -/
theorem expCap_pos (base cap attempt : Int)
    (hb : 0 < base) (hc : 0 < cap) (ha : 0 ≤ attempt) :
    0 < expCap base cap attempt := by
  rw [expCap_eq_min base cap attempt hb hc ha]
  have hpow : (0 : Int) < 2 ^ attempt.toNat := pow_pos (by norm_num) _
  have : 0 < base * 2 ^ attempt.toNat := mul_pos hb hpow
  omega

/-- `expCap` never exceeds `cap` when `cap` is valid. -/
theorem expCap_le_cap (base cap attempt : Int) (hc : 0 < cap) :
    expCap base cap attempt ≤ cap := by
  by_cases hv : attempt < 0 ∨ base ≤ 0 ∨ cap ≤ 0
  · rw [expCap, if_pos hv]
    omega
  · push_neg at hv
    rw [expCap_eq_min base cap attempt (by omega) hc (by omega)]
    exact min_le_right _ _

/-- `expCap` is never negative. -/
theorem expCap_nonneg (base cap attempt : Int) :
    0 ≤ expCap base cap attempt := by
  by_cases hv : attempt < 0 ∨ base ≤ 0 ∨ cap ≤ 0
  · rw [expCap, if_pos hv]
  · push_neg at hv
    exact (expCap_pos base cap attempt (by omega) (by omega) (by omega)).le

/-! ## Claim theorems about `expCap` -/

/-- C1: for every `base > 0`, `cap > 0` and `attempt ≥ 0`,
`expCap base cap attempt` equals `min (base * 2 ^ attempt) cap`, and for
every call with `base ≤ 0`, `cap ≤ 0` or `attempt < 0` it returns `0`. -/
theorem C1_expCap_min_or_zero (base cap attempt : Int) :
    (0 < base → 0 < cap → 0 ≤ attempt →
      expCap base cap attempt = min (base * 2 ^ attempt.toNat) cap) ∧
    (base ≤ 0 ∨ cap ≤ 0 ∨ attempt < 0 → expCap base cap attempt = 0) :=
  ⟨fun hb hc ha => expCap_eq_min base cap attempt hb hc ha,
   fun h => expCap_eq_zero base cap attempt h⟩

/-- Witness for C1 at `base = 100`, `cap = 10000`, `attempt = 3` and at the
invalid input `attempt = -1`. -/
theorem C1_expCap_min_or_zero_witness :
    expCap 100 10000 3 = 800 ∧ expCap 100 10000 (-1) = 0 := by
  constructor
  · have h := (C1_expCap_min_or_zero 100 10000 3).1
      (by norm_num) (by norm_num) (by norm_num)
    rw [h]
    decide
  · exact (C1_expCap_min_or_zero 100 10000 (-1)).2 (by norm_num)

/-- C8: for fixed `base > 0` and `cap > 0` with `base ≤ cap`, `expCap` is
monotonically non-decreasing in `attempt` over `attempt ≥ 0`, always at most
`cap`, and equal to `cap` for all large enough `attempt`. -/
theorem C8_expCap_monotone_capped (base cap : Int)
    (hb : 0 < base) (hc : 0 < cap) (_hbc : base ≤ cap) :
    (∀ a b : Int, 0 ≤ a → a ≤ b → expCap base cap a ≤ expCap base cap b) ∧
    (∀ a : Int, 0 ≤ a → expCap base cap a ≤ cap) ∧
    (∃ N : Int, 0 ≤ N ∧ ∀ a : Int, N ≤ a → expCap base cap a = cap) := by
  refine ⟨?_, ?_, ?_⟩
  · intro a b ha hab
    rw [expCap_eq_min base cap a hb hc ha,
        expCap_eq_min base cap b hb hc (le_trans ha hab)]
    have h1 : a.toNat ≤ b.toNat := by omega
    have h2 : (2 : Int) ^ a.toNat ≤ 2 ^ b.toNat :=
      pow_le_pow_right₀ (by norm_num) h1
    exact min_le_min (mul_le_mul_of_nonneg_left h2 hb.le) le_rfl
  · intro a ha
    exact expCap_le_cap base cap a hc
  · refine ⟨cap, hc.le, fun a haN => ?_⟩
    have ha : 0 ≤ a := le_trans hc.le haN
    rw [expCap_eq_min base cap a hb hc ha]
    have h1 : cap.toNat ≤ a.toNat := by omega
    have h2 : cap.toNat < 2 ^ a.toNat :=
      lt_of_le_of_lt h1 (Nat.lt_two_pow _)
    have h3 : (cap : Int) ≤ 2 ^ a.toNat := by
      zify at h2
      omega
    have h4 : (2 : Int) ^ a.toNat ≤ base * 2 ^ a.toNat := by
      nlinarith [pow_pos (show (0 : Int) < 2 by norm_num) a.toNat]
    omega

/-- Witness for C8 at `base = 100`, `cap = 10000`. -/
theorem C8_expCap_monotone_capped_witness :
    expCap 100 10000 3 ≤ expCap 100 10000 4 ∧ expCap 100 10000 4 ≤ 10000 := by
  have h := C8_expCap_monotone_capped 100 10000
    (by norm_num) (by norm_num) (by norm_num)
  exact ⟨h.1 3 4 (by norm_num) (by norm_num), h.2.1 4 (by norm_num)⟩

/-! ## Claim theorem for the Exponential strategy -/

/-- C9: `exponential.Next` equals `expCap` exactly and never consults the
random source (the constructed strategy does not depend on `cfg.Random` at
all), and `NewExponential` succeeds exactly when `base > 0` and `cap > 0` —
in particular a nil random source is not an error. -/
theorem C9_exponential_deterministic (base cap : Int)
    (r1 r2 : Option (Int → Int)) (attempt : Int) :
    exponentialNext base cap attempt = expCap base cap attempt ∧
    NewExponential ⟨base, cap, r1⟩ = NewExponential ⟨base, cap, r2⟩ ∧
    ((∃ e, NewExponential ⟨base, cap, r1⟩ = .ok e) ↔ 0 < base ∧ 0 < cap) := by
  refine ⟨rfl, rfl, ?_⟩
  rw [NewExponential]
  simp only [getExponentialConfigIssues]
  by_cases hb : base ≤ 0 <;> by_cases hc : cap ≤ 0 <;>
    simp [hb, hc] <;> omega

/-! ## Decorrelated jitter: single-step lemmas -/

/-- `wrap64` never increases a non-negative value. -/
theorem wrap64_le (x : Int) (hx : 0 ≤ x) : wrap64 x ≤ x := by
  simp only [wrap64]
  omega

/-- `wrap64` is the identity on the `int64` range. -/
theorem wrap64_eq (x : Int) (h1 : -9223372036854775808 ≤ x)
    (h2 : x < 9223372036854775808) : wrap64 x = x := by
  simp only [wrap64]
  omega

/-- Under the random-source contract the draw lands in `[base, cap]`. -/
theorem decorrelatedDraw_mem (base cap mx2 : Int) (random : Int → Int)
    (hb : 0 < base) (hbc : base ≤ cap) (hmx : mx2 ≤ cap)
    (hr : GoodRandom random) :
    base ≤ decorrelatedDraw base cap random mx2 ∧
      decorrelatedDraw base cap random mx2 ≤ cap := by
  by_cases h1 : mx2 ≤ base
  · simp only [decorrelatedDraw, if_pos h1]
    omega
  · have hrs := hr (mx2 - base) (by omega)
    simp only [decorrelatedDraw, if_neg h1]
    split_ifs <;> omega

/-- Under the random-source contract the draw never exceeds `max base mx2`. -/
theorem decorrelatedDraw_le_max (base cap mx2 : Int) (random : Int → Int)
    (hb : 0 < base) (hr : GoodRandom random) :
    decorrelatedDraw base cap random mx2 ≤ max base mx2 := by
  by_cases h1 : mx2 ≤ base
  · simp only [decorrelatedDraw, if_pos h1]
    omega
  · have hrs := hr (mx2 - base) (by omega)
    simp only [decorrelatedDraw, if_neg h1]
    split_ifs <;> omega

/-- With `base > 0` and a clamped bound the draw is strictly positive,
whatever the random source returns. -/
theorem decorrelatedDraw_pos (base cap mx2 : Int) (random : Int → Int)
    (hb : 0 < base) (hmx : mx2 ≤ cap) :
    0 < decorrelatedDraw base cap random mx2 := by
  simp only [decorrelatedDraw]
  split_ifs <;> omega

/-- Any single `Next` call on a valid `base ≤ cap` configuration stores and
returns a value in `[base, cap]`, from any starting sleep whatsoever. -/
theorem decorrelatedStep_mem (base cap : Int) (random : Int → Int)
    (attempt sleep : Int) (hb : 0 < base) (hbc : base ≤ cap)
    (hr : GoodRandom random) :
    base ≤ decorrelatedStep base cap random attempt sleep ∧
      decorrelatedStep base cap random attempt sleep ≤ cap := by
  simp only [decorrelatedStep]
  apply decorrelatedDraw_mem base cap _ random hb hbc _ hr
  split_ifs <;> omega

/-- With `base > 0` the stored sleep stays strictly positive after any call,
whatever the random source returns. -/
theorem decorrelatedStep_pos (base cap : Int) (random : Int → Int)
    (attempt sleep : Int) (hb : 0 < base) :
    0 < decorrelatedStep base cap random attempt sleep := by
  simp only [decorrelatedStep]
  apply decorrelatedDraw_pos _ _ _ _ hb
  split_ifs <;> omega

/-! ## Claim theorems: ranges, reset semantics, sleep positivity -/

/-- `maxRandom` satisfies the random-source contract. -/
theorem maxRandom_good : GoodRandom maxRandom := by
  intro n hn
  simp only [maxRandom]
  omega

/-- C3 (amended): for every validly constructed strategy whose configuration
additionally satisfies `base ≤ cap`, and a contract-satisfying random
source, `Next` returns a value in `[0, cap]` — for Full at every
`attempt ≥ 0` (at negative attempts Full consults the random source at
bound `0`, the bug of C2/C5), for Equal and Exponential at every attempt,
and for Decorrelated the value after any call from any sleep state lies in
`[base, cap]` (hence so does every value after the first call). -/
theorem C3_next_range (base cap : Int) (random : Int → Int)
    (hb : 0 < base) (hc : 0 < cap) (hbc : base ≤ cap) (hr : GoodRandom random) :
    (∀ attempt : Int, 0 ≤ attempt →
      0 ≤ fullNext base cap random attempt ∧
        fullNext base cap random attempt ≤ cap) ∧
    (∀ attempt : Int,
      0 ≤ equalNext base cap random attempt ∧
        equalNext base cap random attempt ≤ cap) ∧
    (∀ attempt : Int,
      0 ≤ exponentialNext base cap attempt ∧
        exponentialNext base cap attempt ≤ cap) ∧
    (∀ attempt sleep : Int,
      base ≤ (decorrelatedNext base cap random attempt sleep).1 ∧
        (decorrelatedNext base cap random attempt sleep).1 ≤ cap) := by
  refine ⟨?_, ?_, ?_, ?_⟩
  · intro attempt ha
    have h1 := expCap_pos base cap attempt hb hc ha
    have h2 := expCap_le_cap base cap attempt hc
    have h3 := hr (expCap base cap attempt) h1
    simp only [fullNext]
    rw [if_neg (by omega)]
    omega
  · intro attempt
    have h1 := expCap_nonneg base cap attempt
    have h2 := expCap_le_cap base cap attempt hc
    simp only [equalNext]
    split_ifs with hbo hsp
    · omega
    · omega
    · have hrs := hr (expCap base cap attempt - expCap base cap attempt / 2)
        (by omega)
      omega
  · intro attempt
    exact ⟨expCap_nonneg base cap attempt, expCap_le_cap base cap attempt hc⟩
  · intro attempt sleep
    exact decorrelatedStep_mem base cap random attempt sleep hb hbc hr

/-- Witness for the amended C3 at `base = 100`, `cap = 10000`. -/
theorem C3_next_range_witness :
    0 ≤ fullNext 100 10000 maxRandom 3 ∧ fullNext 100 10000 maxRandom 3 ≤ 10000 ∧
    100 ≤ (decorrelatedNext 100 10000 maxRandom 1 100).1 ∧
    (decorrelatedNext 100 10000 maxRandom 1 100).1 ≤ 10000 := by
  have h := C3_next_range 100 10000 maxRandom
    (by norm_num) (by norm_num) (by norm_num) maxRandom_good
  exact ⟨(h.1 3 (by norm_num)).1, (h.1 3 (by norm_num)).2,
    (h.2.2.2 1 100).1, (h.2.2.2 1 100).2⟩

/-- C3: refuted as stated — `base = 10 > cap = 5` passes construction
(`getJitterConfigIssues` is empty), yet on its fresh sleep state `10` the
Decorrelated `Next 1` returns `10 > cap`. -/
theorem C3_counterexample :
    GoodRandom (fun _ => (0 : Int)) ∧
    getJitterConfigIssues ⟨10, 5, some (fun _ => 0)⟩ = [] ∧
    (decorrelatedNext 10 5 (fun _ => 0) 1 10).1 = 10 ∧
    ¬ ((decorrelatedNext 10 5 (fun _ => 0) 1 10).1 ≤ 5) := by
  refine ⟨fun n hn => ⟨le_refl 0, hn⟩, by decide, by decide, by decide⟩

/-- C4 (amended): calling Decorrelated `Next` with any `attempt < 1` from
any sleep state is identical (value and resulting state) to `Next 1` on a
freshly constructed instance with the same configuration and random source —
unconditionally, for every configuration; and, provided the configuration
additionally satisfies `base ≤ cap` (with the usual `base > 0` and the
random-source contract), the value returned by such a reset call lies in
`[base, min (base*3) cap]`. -/
theorem C4_reset_equiv (base cap : Int) (random : Int → Int)
    (attempt sleep : Int) (ha : attempt < 1) :
    decorrelatedNext base cap random attempt sleep =
      decorrelatedNext base cap random 1 base ∧
    (0 < base → base ≤ cap → GoodRandom random →
      base ≤ (decorrelatedNext base cap random attempt sleep).1 ∧
      (decorrelatedNext base cap random attempt sleep).1 ≤
        min (base * 3) cap) := by
  have hstep : decorrelatedStep base cap random attempt sleep =
      decorrelatedStep base cap random 1 base := by
    simp only [decorrelatedStep, if_pos ha]
    norm_num
  refine ⟨by simp only [decorrelatedNext, hstep], ?_⟩
  intro hb hbc hr
  have hv : (decorrelatedNext base cap random attempt sleep).1 =
      decorrelatedStep base cap random 1 base := by
    simp only [decorrelatedNext, hstep]
  rw [hv]
  have hw : wrap64 (base * 3) ≤ base * 3 := wrap64_le _ (by omega)
  simp only [decorrelatedStep, ite_self]
  set m2 := if (if wrap64 (base * 3) < base then base else wrap64 (base * 3)) > cap
      then cap else (if wrap64 (base * 3) < base then base else wrap64 (base * 3))
    with hm2
  have hm2c : m2 ≤ cap := by rw [hm2]; split_ifs <;> omega
  have hm2b : m2 ≤ base * 3 := by rw [hm2]; split_ifs <;> omega
  have h1 := decorrelatedDraw_mem base cap m2 random hb hbc hm2c hr
  have h2 := decorrelatedDraw_le_max base cap m2 random hb hr
  omega

/-- C4: refuted as stated — with the validly constructed configuration
`base = 10 > cap = 5`, a reset call (`attempt = 0`) returns `10`, outside
`[base, min (base*3) cap] = [10, 5]`. -/
theorem C4_counterexample :
    GoodRandom (fun _ => (0 : Int)) ∧
    (decorrelatedNext 10 5 (fun _ => 0) 0 7).1 = 10 ∧
    ¬ ((decorrelatedNext 10 5 (fun _ => 0) 0 7).1 ≤ min (10 * 3) 5) := by
  refine ⟨fun n hn => ⟨le_refl 0, hn⟩, by decide, by decide⟩

/-- Along any call sequence started from a positive sleep, every surrounding
sleep state is positive and the safeguard branch never fires. -/
theorem decorrelatedRun_pos (base cap : Int) (random : Int → Int)
    (hb : 0 < base) :
    ∀ (attempts : List Int) (s : Int), 0 < s →
      (∀ x ∈ decorrelatedSleeps base cap random attempts s, 0 < x) ∧
      decorrelatedRunSafe base cap random attempts s := by
  intro attempts
  induction attempts with
  | nil =>
    intro s hs
    refine ⟨?_, trivial⟩
    intro x hx
    simp only [decorrelatedSleeps, List.mem_singleton] at hx
    omega
  | cons a rest ih =>
    intro s hs
    have hnext : 0 < (decorrelatedNext base cap random a s).2 :=
      decorrelatedStep_pos base cap random a s hb
    have hrest := ih _ hnext
    refine ⟨?_, ?_, hrest.2⟩
    · intro x hx
      simp only [decorrelatedSleeps, List.mem_cons] at hx
      rcases hx with rfl | hx
      · exact hs
      · exact hrest.1 x hx
    · simp only [decorrelatedSafeguardFires]
      split_ifs <;> omega

/-- C10: for every Decorrelated instance built by `NewDecorrelated` (so
`base > 0`, initial sleep `base`) and any sequence of `Next` calls with a
contract-satisfying random source, the internal sleep stays strictly
positive before and after every call, and the `sleep ≤ 0` safeguard branch
is never taken. -/
theorem C10_sleep_positive (base cap : Int) (random : Int → Int)
    (attempts : List Int) (hb : 0 < base) (_hr : GoodRandom random) :
    (∀ s ∈ decorrelatedSleeps base cap random attempts base, 0 < s) ∧
    decorrelatedRunSafe base cap random attempts base :=
  decorrelatedRun_pos base cap random hb attempts base hb

/-- Witness for C10 at `base = 1`, `cap = 5`, attempts `[1, 2, 0]`. -/
theorem C10_sleep_positive_witness :
    (∀ s ∈ decorrelatedSleeps 1 5 (fun _ => 0) [1, 2, 0] 1, 0 < s) ∧
    decorrelatedRunSafe 1 5 (fun _ => 0) [1, 2, 0] 1 :=
  C10_sleep_positive 1 5 (fun _ => 0) [1, 2, 0] (by norm_num)
    (fun n hn => ⟨le_refl 0, hn⟩)

/-! ## Claim theorems: error reporting and the Full-jitter zero-bound bug -/

set_option maxRecDepth 10000

/-- C6: constructing Full, Equal or Decorrelated with `base = 0`, `cap = -5`
and a nil random source fails with a single `ConfigError` whose issue list
names all three violated preconditions, and whose message joins them. -/
theorem C6_all_issues_reported :
    getJitterConfigIssues ⟨0, -5, none⟩ =
      ["Base must be > 0", "Cap must be > 0",
        "Random function must be provided"] ∧
    NewFull ⟨0, -5, none⟩ = .error ⟨["Base must be > 0", "Cap must be > 0",
      "Random function must be provided"]⟩ ∧
    NewEqual ⟨0, -5, none⟩ = .error ⟨["Base must be > 0", "Cap must be > 0",
      "Random function must be provided"]⟩ ∧
    NewDecorrelated ⟨0, -5, none⟩ = .error ⟨["Base must be > 0",
      "Cap must be > 0", "Random function must be provided"]⟩ ∧
    ConfigError.errorMessage ⟨["Base must be > 0", "Cap must be > 0",
      "Random function must be provided"]⟩ =
      "jitter: invalid config: Base must be > 0, Cap must be > 0, Random function must be provided" :=
  ⟨rfl, rfl, rfl, rfl, rfl⟩

/-- C2: refuted — `fullJitter.Next` guards only `max < 0`, not `max ≤ 0`, so
when `expCap` yields `0` (here: valid config `base = 100`, `cap = 10000`,
`attempt = -1`) it consults the random source with bound `0`.  The exhibited
source satisfies the `RandomFunc` contract (returns `0` for every positive
bound) yet `Next` returns its value at bound `0`, namely `1`, not `0`. -/
theorem C2_full_calls_random_with_zero_bound :
    GoodRandom (fun n => if 0 < n then 0 else 1) ∧
    expCap 100 10000 (-1) = 0 ∧
    fullNext 100 10000 (fun n => if 0 < n then 0 else 1) (-1) = 1 := by
  refine ⟨?_, by decide, by decide⟩
  intro n hn
  simp only [if_pos hn]
  omega

/-- C5: refuted for Full — on the valid config `base = 100`, `cap = 10000`
and a contract-satisfying source, `Next (-1)` is `0` for Equal and
Exponential, but Full forwards the source's value at bound `0` (here `7`). -/
theorem C5_negative_attempt_full_bug :
    GoodRandom (fun n => if 0 < n then 0 else 7) ∧
    equalNext 100 10000 (fun n => if 0 < n then 0 else 7) (-1) = 0 ∧
    exponentialNext 100 10000 (-1) = 0 ∧
    fullNext 100 10000 (fun n => if 0 < n then 0 else 7) (-1) = 7 := by
  refine ⟨?_, by decide, by decide, by decide⟩
  intro n hn
  simp only [if_pos hn]
  omega

/-! ## Decorrelated jitter under the max-returning source -/

theorem decorrelatedNext_fst (base cap : Int) (random : Int → Int)
    (attempt sleep : Int) :
    (decorrelatedNext base cap random attempt sleep).1 =
      decorrelatedStep base cap random attempt sleep := rfl

theorem decorrelatedNext_snd (base cap : Int) (random : Int → Int)
    (attempt sleep : Int) :
    (decorrelatedNext base cap random attempt sleep).2 =
      decorrelatedStep base cap random attempt sleep := rfl

/-- Each call returns exactly the sleep value it stores, so the value of the
`(k+1)`-th call is the sleep after `k+1` calls. -/
theorem decorrelatedValueSeq_eq_sleepSeq (base cap : Int) (random : Int → Int)
    (attempt : Int) (k : Nat) :
    decorrelatedValueSeq base cap random attempt k =
      decorrelatedSleepSeq base cap random attempt (k + 1) := rfl

/-- Under `maxRandom` and `base < cap` (within the overflow-safe range), a
non-reset call maps sleep `s ∈ [base, cap]` to `min (3 * s) cap - 1`. -/
theorem decorrelatedStep_maxRandom (base cap s : Int) (hb : 0 < base)
    (hbc : base < cap) (hs : base ≤ s) (hsc : s ≤ cap)
    (hof : 3 * cap < 9223372036854775808) :
    decorrelatedStep base cap maxRandom 1 s = min (3 * s) cap - 1 := by
  have hw : wrap64 (s * 3) = s * 3 := wrap64_eq _ (by omega) (by omega)
  simp only [decorrelatedStep]
  norm_num
  rw [if_neg (show ¬ s ≤ 0 by omega), hw]
  simp only [decorrelatedDraw, maxRandom]
  split_ifs <;> omega

/-- With `base = cap` there is never room to jitter: the call returns `base`
whatever the random source is. -/
theorem decorrelatedStep_base_eq_cap (base : Int) (random : Int → Int)
    (hb : 0 < base) (hof : 3 * base < 9223372036854775808) :
    decorrelatedStep base base random 1 base = base := by
  have hw : wrap64 (base * 3) = base * 3 := wrap64_eq _ (by omega) (by omega)
  simp only [decorrelatedStep]
  norm_num
  rw [hw]
  simp only [decorrelatedDraw]
  split_ifs <;> omega

/-- The sleep sequence under `maxRandom` stays in `[base, cap]`. -/
theorem decorrelatedSleepSeq_mem (base cap : Int) (hb : 0 < base)
    (hbc : base < cap) (hof : 3 * cap < 9223372036854775808) :
    ∀ k : Nat, base ≤ decorrelatedSleepSeq base cap maxRandom 1 k ∧
      decorrelatedSleepSeq base cap maxRandom 1 k ≤ cap := by
  intro k
  induction k with
  | zero =>
    simp only [decorrelatedSleepSeq]
    omega
  | succ n ih =>
    have hstep := decorrelatedStep_maxRandom base cap _ hb hbc ih.1 ih.2 hof
    simp only [decorrelatedSleepSeq, decorrelatedNext_snd]
    rw [hstep]
    omega

/-- The sleep sequence under `maxRandom` grows at least geometrically until
it reaches `cap - 1`. -/
theorem decorrelatedSleepSeq_growth (base cap : Int) (hb : 0 < base)
    (hbc : base < cap) (hof : 3 * cap < 9223372036854775808) :
    ∀ k : Nat, min (cap - 1) (2 ^ k) ≤
      decorrelatedSleepSeq base cap maxRandom 1 k := by
  intro k
  induction k with
  | zero =>
    simp only [decorrelatedSleepSeq, pow_zero]
    omega
  | succ n ih =>
    have hmem := decorrelatedSleepSeq_mem base cap hb hbc hof n
    have hstep := decorrelatedStep_maxRandom base cap _ hb hbc hmem.1 hmem.2 hof
    have hpow1 : (0 : Int) < 2 ^ n := pow_pos (by norm_num) n
    simp only [decorrelatedSleepSeq, decorrelatedNext_snd]
    rw [hstep, pow_succ]
    omega

/-- From call `cap.toNat` on, the sleep under `maxRandom` is exactly
`cap - 1` (for `base < cap`): `cap - 1` is the fixed point of the step. -/
theorem decorrelatedSleepSeq_eventually (base cap : Int) (hb : 0 < base)
    (hbc : base < cap) (hof : 3 * cap < 9223372036854775808) :
    ∀ k : Nat, cap.toNat ≤ k →
      decorrelatedSleepSeq base cap maxRandom 1 k = cap - 1 := by
  intro k hk
  induction k, hk using Nat.le_induction with
  | base =>
    obtain ⟨m, hm⟩ : ∃ m, cap.toNat = m + 1 := ⟨cap.toNat - 1, by omega⟩
    have hgrow := decorrelatedSleepSeq_growth base cap hb hbc hof cap.toNat
    have hmem0 := decorrelatedSleepSeq_mem base cap hb hbc hof m
    have hstep := decorrelatedStep_maxRandom base cap _ hb hbc hmem0.1 hmem0.2 hof
    have h2p : (cap : Int) ≤ 2 ^ cap.toNat := by
      have h1 : cap.toNat < 2 ^ cap.toNat := Nat.lt_two_pow _
      zify at h1
      omega
    rw [hm] at hgrow h2p ⊢
    simp only [decorrelatedSleepSeq, decorrelatedNext_snd] at hgrow ⊢
    rw [hstep] at hgrow ⊢
    omega
  | succ n hn ih =>
    have hmem := decorrelatedSleepSeq_mem base cap hb hbc hof n
    have hstep := decorrelatedStep_maxRandom base cap _ hb hbc hmem.1 hmem.2 hof
    simp only [decorrelatedSleepSeq, decorrelatedNext_snd]
    rw [hstep, ih]
    omega

/-- With `base = cap` the sleep never moves. -/
theorem decorrelatedSleepSeq_base_eq_cap (base : Int) (random : Int → Int)
    (hb : 0 < base) (hof : 3 * base < 9223372036854775808) :
    ∀ k : Nat, decorrelatedSleepSeq base base random 1 k = base := by
  intro k
  induction k with
  | zero => rfl
  | succ n ih =>
    simp only [decorrelatedSleepSeq, decorrelatedNext_snd]
    rw [ih, decorrelatedStep_base_eq_cap base random hb hof]

/-- C7: refuted as stated — on the valid configuration `base = 1 < cap = 3`
with the max-returning source `maxRandom` (the largest value of `[0, n)` is
`n - 1`), the sequence of returned values never reaches `cap`: no tail of
the sequence is constantly `3`. -/
theorem C7_counterexample_never_reaches_cap :
    (0 : Int) < 1 ∧ (1 : Int) ≤ 3 ∧ GoodRandom maxRandom ∧
    ¬ ∃ N : Nat, ∀ k : Nat, N ≤ k →
      decorrelatedValueSeq 1 3 maxRandom 1 k = 3 := by
  refine ⟨by norm_num, by norm_num, maxRandom_good, ?_⟩
  rintro ⟨N, h⟩
  have h1 := h (N + 3) (by omega)
  have h2 : decorrelatedValueSeq 1 3 maxRandom 1 (N + 3) = 3 - 1 := by
    rw [decorrelatedValueSeq_eq_sleepSeq]
    exact decorrelatedSleepSeq_eventually 1 3 (by norm_num) (by norm_num)
      (by norm_num) (N + 4) (by omega)
  omega

/-- C7 (amended): for a Decorrelated strategy with valid `0 < base ≤ cap`
(`3 * cap` within `int64` range, so the `sleep * 3` computation does not
overflow) and the max-returning random source, the sequence of values
returned by repeated `Next 1` calls converges and then stays constant: at
`cap` when `base = cap`, and at `cap - 1` when `base < cap`. -/
theorem C7_decorrelated_converges (base cap : Int) (hb : 0 < base)
    (hbc : base ≤ cap) (hof : 3 * cap < 9223372036854775808) :
    ∃ N : Nat, ∀ k : Nat, N ≤ k →
      decorrelatedValueSeq base cap maxRandom 1 k =
        if base = cap then cap else cap - 1 := by
  rcases eq_or_lt_of_le hbc with heq | hlt
  · refine ⟨0, fun k _ => ?_⟩
    rw [if_pos heq]
    subst heq
    rw [decorrelatedValueSeq_eq_sleepSeq,
      decorrelatedSleepSeq_base_eq_cap base maxRandom hb (by omega) (k + 1)]
  · refine ⟨cap.toNat, fun k hk => ?_⟩
    rw [if_neg (by omega)]
    rw [decorrelatedValueSeq_eq_sleepSeq]
    exact decorrelatedSleepSeq_eventually base cap hb hlt hof (k + 1) (by omega)

/-- Witness for the amended C7 at `base = 1`, `cap = 3`: the tail value is
`cap - 1 = 2`. -/
theorem C7_decorrelated_converges_witness :
    ∃ N : Nat, ∀ k : Nat, N ≤ k →
      decorrelatedValueSeq 1 3 maxRandom 1 k = 2 := by
  have h := C7_decorrelated_converges 1 3 (by norm_num) (by norm_num)
    (by norm_num)
  simpa using h

/-- Witness for the amended C4 at `base = 1`, `cap = 3`, `attempt = 0` and a
stale sleep of `7`. -/
theorem C4_reset_equiv_witness :
    decorrelatedNext 1 3 maxRandom 0 7 = decorrelatedNext 1 3 maxRandom 1 1 ∧
    1 ≤ (decorrelatedNext 1 3 maxRandom 0 7).1 ∧
    (decorrelatedNext 1 3 maxRandom 0 7).1 ≤ min (1 * 3) 3 := by
  have h := C4_reset_equiv 1 3 maxRandom 0 7 (by norm_num)
  exact ⟨h.1, (h.2 (by norm_num) (by norm_num) maxRandom_good).1,
    (h.2 (by norm_num) (by norm_num) maxRandom_good).2⟩

end Jitter
